import Mathlib

/-
  Verification development for the waigo test-utils harness.

  The embedding models the harness of `src/unnamed/part_000` (the
  `getTools` closure): filesystem fixture construction (createFolder,
  deleteFolder, writeFile, createTestFolders, deleteTestFolders,
  createModules, createAppModules, createPluginModules) and the
  coroutine/async bridge (awaitAsync, mustThrow).

  Paths are modelled in the normal form Node's `path.posix` computes:
  an absolute flag plus the list of `/`-separated segments.  String
  module names coming from the caller are parsed into raw segments and
  joined with the Node `path.join` normalization (skipping empty and
  `.` segments, resolving `..` against the stack).  The filesystem is a
  set of directories plus an association list of files, and every
  mutating operation additionally appends an event to a trace so that
  ordering claims can be stated.
-/

namespace TestUtils

/-- A filesystem path in normalized-string form: absolute flag plus the
list of path segments. -/
structure Path where
  abs : Bool
  segs : List String
deriving DecidableEq, Repr

/-- Split a character list at every occurrence of `c` (model of
splitting a string on the separator `/`, as `String.prototype.split` and
`path` do). -/
def splitChar (c : Char) : List Char → List (List Char)
  | [] => [[]]
  | x :: xs =>
    let r := splitChar c xs
    if x = c then [] :: r
    else
      match r with
      | [] => [[x]]
      | h :: t => (x :: h) :: t

/-- Whether a character list denotes an absolute path (starts with
`/`). -/
def isAbsChars : List Char → Bool
  | [] => false
  | c :: _ => c == '/'

/-- Whether the string denotes an absolute path (starts with `/`). -/
def isAbsStr (s : String) : Bool :=
  isAbsChars s.data

/-- Parse a raw path string into the absolute flag and its raw
`/`-separated segments (not yet normalized). -/
def parsePath (s : String) : Path :=
  ⟨isAbsStr s, (splitChar '/' s.data).map (fun cs => String.mk cs)⟩

/-- Model of JavaScript `String.prototype.endsWith`. -/
def strEndsWith (s p : String) : Bool :=
  p.toList.reverse.isPrefixOf s.toList.reverse

/-- One step of Node `path.posix` normalization: empty and `.` segments
are skipped, `..` pops the last stacked segment when possible (and is
dropped at the root of an absolute path). -/
def joinStep (ab : Bool) (acc : List String) (s : String) : List String :=
  if s = "" ∨ s = "." then acc
  else if s = ".." then
    match acc.getLast? with
    | none => if ab then [] else [".."]
    | some t => if t = ".." ∧ ab = false then acc ++ [".."] else acc.dropLast
  else acc ++ [s]

/-- Node `path.posix` normalization of a raw segment list. -/
def normSegs (ab : Bool) (l : List String) : List String :=
  l.foldl (joinStep ab) []

/-- Model of `path.join(p, q)`: concatenate the raw segments and
normalize (the second argument's absolute flag is irrelevant, exactly as
in Node where the strings are joined with `/` first). -/
def pathJoin (p q : Path) : Path :=
  ⟨p.abs, normSegs p.abs (p.segs ++ q.segs)⟩

/-- `path.join(folder, name)` where `name` is a raw string. -/
def joinStr (p : Path) (s : String) : Path :=
  pathJoin p (parsePath s)

/-- Model of `path.dirname`. -/
def dirname (p : Path) : Path :=
  ⟨p.abs, p.segs.dropLast⟩

/-- Model of `path.extname`: the extension of the basename, empty when
the basename has no dot or only a leading dot. -/
def extname (s : String) : String :=
  let baseCs := (splitChar '/' s.toList).getLastD []
  if baseCs.all (fun c => c == '.') then ""
  else
    let pre := baseCs.reverse.takeWhile (fun c => !(c == '.'))
    if pre.length = baseCs.length then ""
    else if pre.length + 1 = baseCs.length then ""
    else String.mk ('.' :: pre.reverse)

/-- String concatenation `rendered-path ++ ext` of a rendered path with
an extension, in segment form: the extension is appended to the last
segment. -/
def pathAppendStr (p : Path) (e : String) : Path :=
  match p.segs.getLast? with
  | some t => ⟨p.abs, p.segs.dropLast ++ [t ++ e]⟩
  | none => ⟨p.abs, [e]⟩

/-- `p.underB q` : `q` equals `p` or lies below `p` (weak prefix of
segments, same absolute flag). -/
def Path.underB (p q : Path) : Bool :=
  (p.abs == q.abs) && p.segs.isPrefixOf q.segs

/-- `r.insideB p` : `p` lies strictly inside the directory `r`. -/
def Path.insideB (r p : Path) : Bool :=
  r.underB p && decide (r.segs.length < p.segs.length)

/-- A segment that survives normalization unchanged (not empty, not
`.`). -/
def goodSeg (s : String) : Bool :=
  !(s == "" || s == ".")



/-- The filesystem: the set of existing directories and the existing
files with their contents (the head of the list shadows older entries
for the same path). -/
structure FS where
  dirs : List Path
  files : List (Path × String)
deriving DecidableEq, Repr

/-- Whether a directory exists.  A path without segments is the root of
its tree (`/` or the working directory), which always exists. -/
def FS.dirExists (fs : FS) (p : Path) : Prop :=
  p.segs = [] ∨ p ∈ fs.dirs

instance (fs : FS) (p : Path) : Decidable (fs.dirExists p) := by
  unfold FS.dirExists
  infer_instance

/-- The contents of the file at `p`, if one exists. -/
def FS.fileContents (fs : FS) (p : Path) : Option String :=
  (fs.files.find? (fun e => e.1 == p)).map (fun e => e.2)

/-- Model of `mkdir -p` / `mkdirp`: create the directory and every
missing intermediate directory. -/
def FS.mkdirp (fs : FS) (p : Path) : FS :=
  { fs with dirs :=
      ((List.range p.segs.length).map
        (fun i => Path.mk p.abs (p.segs.take (i + 1)))) ++ fs.dirs }

/-- Model of `rm -rf`: delete the entry at `p` and everything below
it. -/
def FS.rmrf (fs : FS) (p : Path) : FS :=
  ⟨fs.dirs.filter (fun d => ! p.underB d),
   fs.files.filter (fun e => ! p.underB e.1)⟩

/-- Model of `fs.writeFileSync`: record the file's contents. -/
def FS.setFile (fs : FS) (p : Path) (c : String) : FS :=
  { fs with files := (p, c) :: fs.files }

/-- The name of an immediate child of `p` stored at path `q`, if `q` is
one. -/
def childName (p q : Path) : Option String :=
  if (q.abs == p.abs) && (q.segs.length == p.segs.length + 1)
      && p.segs.isPrefixOf q.segs
  then q.segs.getLast?
  else none

/-- Model of `fs.readdirSync`: the names of the immediate children
(directories and files) of `p`. -/
def FS.readdir (fs : FS) (p : Path) : List String :=
  ((fs.dirs.filterMap (childName p))
    ++ (fs.files.map (fun e => e.1)).filterMap (childName p)).dedup

/-- A filesystem mutation event, used to state ordering claims. -/
inductive Ev where
  | mkdirEv : Path → Ev
  | writeEv : Path → String → Ev
  | rmEv : Path → Ev
deriving DecidableEq, Repr

/-- The state threaded through the harness operations: the filesystem
plus the trace of mutations performed so far. -/
structure St where
  fs : FS
  tr : List Ev
deriving DecidableEq, Repr

/-- The folder configuration computed at the top of `getTools`. -/
structure Tools where
  appFolder : Path
  publicFolder : Path
  pluginsFolder : Path
deriving DecidableEq, Repr

/- ===== the tools of src/unnamed/part_000 (getTools) ===== -/

/-- `tools.createFolder(folder)`: `shell.mkdir('-p', folder)`. -/
def createFolder (p : Path) (s : St) : St :=
  ⟨s.fs.mkdirp p, s.tr ++ [Ev.mkdirEv p]⟩

/-- `tools.deleteFolder(folder)`: `shell.rm('-rf', folder)`. -/
def deleteFolder (p : Path) (s : St) : St :=
  ⟨s.fs.rmrf p, s.tr ++ [Ev.rmEv p]⟩

/-- `tools.writeFile(filePath, contents)`: create the parent folder of
the file first, then write the file. -/
def writeFile (p : Path) (c : String) (s : St) : St :=
  let s1 := createFolder (dirname p) s
  ⟨s1.fs.setFile p c, s1.tr ++ [Ev.writeEv p c]⟩

/-- The marker file contents written into fixture roots. -/
def readmeContent : String :=
  "The presence of this file ensures that node-findit works"

/-- `tools.createTestFolders()`: create the app and public roots and
write the `README` marker into the app root. -/
def createTestFolders (t : Tools) (s : St) : St :=
  writeFile (joinStr t.appFolder "README") readmeContent
    (createFolder t.publicFolder (createFolder t.appFolder s))

/-- The sweep list computed by `deleteTestFolders`: the immediate
children of the plugins folder whose names end with `_TESTPLUGIN`. -/
def sweepSrc (t : Tools) (fs : FS) : List String :=
  (fs.readdir t.pluginsFolder).filter (fun f => strEndsWith f "_TESTPLUGIN")

/-- `tools.deleteTestFolders()`: delete the public root, then the app
root, then every immediate child of the plugins folder whose name ends
with `_TESTPLUGIN`. -/
def deleteTestFolders (t : Tools) (s : St) : St :=
  let s1 := deleteFolder t.publicFolder s
  let s2 := deleteFolder t.appFolder s1
  let plugins := sweepSrc t s2.fs
  plugins.foldl (fun st p => deleteFolder (joinStr t.pluginsFolder p) st) s2

/-- The `modules` argument of `createModules`: either an array of bare
names or a name-to-content object (as an insertion-ordered association
list). -/
inductive Modules where
  | arr : List String → Modules
  | obj : List (String × String) → Modules
deriving DecidableEq, Repr

/-- The generated default module content embedding the label. -/
def defaultModuleContent (label : String) : String :=
  "module.exports=\"" ++ label ++ "\";"

/-- The file extension used for a module: `path.extname(moduleName)`,
or `.js` when the name carries none. -/
def moduleExt (moduleName : String) : String :=
  let e := extname moduleName
  if e = "" then ".js" else e

/-- The file path computed by `__createModule`:
`path.join(srcFolder, moduleName) + extName`. -/
def moduleFileName (srcFolder : Path) (moduleName : String) : Path :=
  pathAppendStr (joinStr srcFolder moduleName) (moduleExt moduleName)

/-- `__createModule(moduleName, moduleContent)` inside `createModules`:
create the containing folder, then write the module file. -/
def __createModule (srcFolder : Path) (moduleName moduleContent : String)
    (s : St) : St :=
  let fileName := moduleFileName srcFolder moduleName
  let folderPath := dirname fileName
  writeFile fileName moduleContent (createFolder folderPath s)

/-- `tools.createModules(srcFolder, modules, defaultContent)`: expand a
bare array into a name-to-content object, then create each module in
order; does nothing when `modules` is not set. -/
def createModules (srcFolder : Path) (modules : Option Modules)
    (defaultContent : String) (s : St) : St :=
  match modules with
  | none => s
  | some ms =>
    let entries : List (String × String) :=
      match ms with
      | Modules.arr names =>
        names.zip (names.map (fun _ => defaultModuleContent defaultContent))
      | Modules.obj es => es
    entries.foldl (fun st e => __createModule srcFolder e.1 e.2 st) s

/-- `tools.createAppModules(modules)`. -/
def createAppModules (t : Tools) (modules : Option Modules) (s : St) : St :=
  createModules t.appFolder modules "app" s

/-- The filesystem mutations performed for one module entry: the
folder creation, the folder creation repeated by `writeFile`, and the
file write. -/
def moduleEvents (src : Path) (n c : String) : List Ev :=
  [Ev.mkdirEv (dirname (moduleFileName src n)),
   Ev.mkdirEv (dirname (moduleFileName src n)),
   Ev.writeEv (moduleFileName src n) c]

/-- The message of the error thrown for a bad plugin name. -/
def pluginError : String := "Test plugin name has incorrect suffix"

/-- The package descriptor written for a plugin. -/
def pluginPackageJson (name : String) : String :=
  "\x7b \"name\": \"" ++ name ++ "\", \"version\": \"0.0.1\" \x7d"

/-- `tools.createPluginModules(name, modules)`: validate the marker
suffix (throwing before any mutation when it is missing), then create
the plugin scaffolding and its modules.  The second component is the
thrown error message, if any. -/
def createPluginModules (t : Tools) (name : String)
    (modules : Option Modules) (s : St) : St × Option String :=
  if strEndsWith name "_TESTPLUGIN" = true then
    let pluginFolderPath := joinStr t.pluginsFolder name
    let publicFolderPath := joinStr pluginFolderPath "public"
    let srcFolderPath := joinStr pluginFolderPath "src"
    let s1 := createFolder pluginFolderPath s
    let s2 := writeFile (joinStr pluginFolderPath "package.json")
      (pluginPackageJson name) s1
    let s3 := writeFile (joinStr pluginFolderPath "index.js")
      "module.exports = \x7b\x7d" s2
    let s4 := createFolder publicFolderPath s3
    let s5 := createFolder srcFolderPath s4
    let s6 := writeFile (joinStr srcFolderPath "README") readmeContent s5
    (createModules srcFolderPath modules name s6, none)
  else
    (s, some pluginError)

/-- Well-formedness of a filesystem: no stored path segment contains a
`/` (true of anything `readdirSync` can ever report). -/
def FSwf (fs : FS) : Prop :=
  (∀ w ∈ fs.dirs, ∀ g ∈ w.segs, ¬ ('/' ∈ g.data))
    ∧ (∀ e ∈ fs.files, ∀ g ∈ e.1.segs, ¬ ('/' ∈ g.data))

instance (fs : FS) : Decidable (FSwf fs) := by
  unfold FSwf
  infer_instance

/- ===== the coroutine/async bridge ===== -/

/-- The settlement of a bridged computation: exactly one of a resolved
value or a propagated failure (carrying the error message). -/
inductive POutcome where
  | resolved : String → POutcome
  | failed : String → POutcome
deriving DecidableEq, Repr

/-- A suspend/resume sequence: the outcomes awaited at its suspension
points, and the value returned when none of them fails. -/
structure GenSeq where
  steps : List POutcome
  result : String
deriving DecidableEq, Repr

/-- The argument of `awaitAsync`: an already-pending value or a
generator (suspend/resume sequence). -/
inductive Comp where
  | pending : POutcome → Comp
  | genFn : GenSeq → Comp
deriving DecidableEq, Repr

/-- Run a suspend/resume sequence: the first failure among the awaited
outcomes propagates; otherwise the sequence resolves with its result. -/
def runGen : List POutcome → String → POutcome
  | [], r => POutcome.resolved r
  | POutcome.resolved _ :: rest, r => runGen rest r
  | POutcome.failed e :: _, _ => POutcome.failed e

/-- `tools.awaitAsync(genOrPromiseFn)`: wrap a generator or pending
value into a single settled outcome via `co`. -/
def awaitAsync (c : Comp) : POutcome :=
  match c with
  | Comp.pending o => o
  | Comp.genFn g => runGen g.steps g.result

/-- `tools.mustThrow(genOrPromiseFn, errorMsg)`: settle successfully
exactly when the wrapped computation fails with the expected message
(the `must.reject.with.error` assertion of the `must` library, modelled
at its interface: an exact message match). -/
def mustThrow (c : Comp) (errorMsg : String) : POutcome :=
  match awaitAsync c with
  | POutcome.failed m =>
    if m = errorMsg then POutcome.resolved ""
    else POutcome.failed ("expected error message " ++ errorMsg
      ++ " but got " ++ m)
  | POutcome.resolved _ =>
    POutcome.failed ("expected rejection with " ++ errorMsg
      ++ " but the computation resolved")

/- ===== sample fixtures for witnesses ===== -/

/-- An empty filesystem. -/
def emptyFS : FS := ⟨[], []⟩

/-- An empty state. -/
def emptySt : St := ⟨emptyFS, []⟩

/-- A sample folder configuration. -/
def sampleTools : Tools :=
  ⟨Path.mk true ["data", "src"], Path.mk true ["data", "public"],
   Path.mk true ["nm"]⟩

/-- A sample state holding one marked plugin, one unmarked entry and a
file inside the unmarked entry. -/
def sampleSweepSt : St :=
  ⟨⟨[Path.mk true ["nm", "a_TESTPLUGIN"], Path.mk true ["nm", "keep"],
     Path.mk true ["data", "src"]],
    [(Path.mk true ["nm", "keep", "f"], "x")]⟩, []⟩

section PathLemmas

theorem isPrefixOfIffEx (a : List String) : ∀ b : List String,
    a.isPrefixOf b = true ↔ ∃ t, b = a ++ t := by
  induction a with
  | nil => intro b; simp [List.isPrefixOf]
  | cons x xs ih =>
    intro b
    cases b with
    | nil => simp [List.isPrefixOf]
    | cons y ys =>
      simp only [List.isPrefixOf, Bool.and_eq_true, beq_iff_eq, ih ys]
      constructor
      · rintro ⟨rfl, t, rfl⟩; exact ⟨t, rfl⟩
      · rintro ⟨t, h⟩
        rw [List.cons_append] at h
        cases h
        exact ⟨rfl, t, rfl⟩

theorem underBIff (p q : Path) :
    p.underB q = true ↔ p.abs = q.abs ∧ ∃ t, q.segs = p.segs ++ t := by
  simp only [Path.underB, Bool.and_eq_true, beq_iff_eq, isPrefixOfIffEx]

theorem underBRefl (p : Path) : p.underB p = true := by
  rw [underBIff]; exact ⟨rfl, [], by simp⟩

theorem underBTrans {p q r : Path} (h1 : p.underB q = true)
    (h2 : q.underB r = true) : p.underB r = true := by
  rw [underBIff] at h1 h2 ⊢
  obtain ⟨ha1, t1, ht1⟩ := h1
  obtain ⟨ha2, t2, ht2⟩ := h2
  exact ⟨ha1.trans ha2, t1 ++ t2, by rw [ht2, ht1, List.append_assoc]⟩

theorem listPreTotal : ∀ (a b q : List String),
    (∃ t, q = a ++ t) → (∃ u, q = b ++ u) →
    (∃ v, b = a ++ v) ∨ (∃ w, a = b ++ w) := by
  intro a
  induction a with
  | nil => intro b q _ _; exact Or.inl ⟨b, by simp⟩
  | cons x xs ih =>
    intro b q h1 h2
    obtain ⟨t, rfl⟩ := h1
    cases b with
    | nil => exact Or.inr ⟨x :: xs, by simp⟩
    | cons y ys =>
      obtain ⟨u, hu⟩ := h2
      rw [List.cons_append, List.cons_append] at hu
      injection hu with hxy hrest
      subst hxy
      rcases ih ys (xs ++ t) ⟨t, rfl⟩ ⟨u, hrest⟩ with ⟨v, hv⟩ | ⟨w, hw⟩
      · exact Or.inl ⟨v, by rw [hv, List.cons_append]⟩
      · exact Or.inr ⟨w, by rw [hw, List.cons_append]⟩

theorem underAntichain {a b q : Path} (ha : a.underB q = true)
    (hb : b.underB q = true) :
    a.underB b = true ∨ b.underB a = true := by
  rw [underBIff] at ha hb
  obtain ⟨haa, t, ht⟩ := ha
  obtain ⟨hba, u, hu⟩ := hb
  rcases listPreTotal a.segs b.segs q.segs ⟨t, ht⟩ ⟨u, hu⟩ with h | h
  · exact Or.inl ((underBIff a b).2 ⟨haa.trans hba.symm, h⟩)
  · exact Or.inr ((underBIff b a).2 ⟨hba.trans haa.symm, h⟩)

theorem underBEqOfLen {a b q : Path} (ha : a.underB q = true)
    (hb : b.underB q = true) (hl : a.segs.length = b.segs.length) :
    a = b := by
  rw [underBIff] at ha hb
  obtain ⟨haa, t, ht⟩ := ha
  obtain ⟨hba, u, hu⟩ := hb
  have h := ht.symm.trans hu
  have := List.append_inj h hl
  cases a; cases b
  simp_all

theorem joinStepRegular (ab : Bool) (acc : List String) {s : String}
    (h0 : s ≠ "") (h1 : s ≠ ".") (h2 : s ≠ "..") :
    joinStep ab acc s = acc ++ [s] := by
  simp [joinStep, h0, h1, h2]

theorem joinStepSkip (ab : Bool) (acc : List String) {s : String}
    (h : s = "" ∨ s = ".") :
    joinStep ab acc s = acc := by
  simp [joinStep, h]

theorem goodSegFalse {s : String} (h : goodSeg s = false) :
    s = "" ∨ s = "." := by
  by_cases h0 : s = ""
  · exact Or.inl h0
  · by_cases h1 : s = "."
    · exact Or.inr h1
    · simp [goodSeg, h0, h1] at h

theorem goodSegTrue {s : String} (h : goodSeg s = true) :
    s ≠ "" ∧ s ≠ "." := by
  refine ⟨fun he => ?_, fun he => ?_⟩ <;> subst he <;> simp [goodSeg] at h

/-- Folding the normalization over a `..`-free raw segment list just
appends the surviving (non-empty, non-`.`) segments. -/
theorem foldlJoinNoDots (ab : Bool) : ∀ (l acc : List String),
    ".." ∉ l → l.foldl (joinStep ab) acc = acc ++ l.filter goodSeg := by
  intro l
  induction l with
  | nil => intro acc _; simp
  | cons x xs ih =>
    intro acc h
    have hx : x ≠ ".." := fun he => h (he ▸ List.mem_cons_self x xs)
    have hxs : ".." ∉ xs := fun he => h (List.mem_cons_of_mem x he)
    rw [List.foldl_cons]
    by_cases hg : goodSeg x = true
    · obtain ⟨h0, h1⟩ := goodSegTrue hg
      rw [joinStepRegular ab acc h0 h1 hx, ih (acc ++ [x]) hxs]
      simp [List.filter_cons, hg]
    · have := goodSegFalse (Bool.eq_false_iff.2 hg)
      rw [joinStepSkip ab acc this, ih acc hxs]
      have : goodSeg x = false := Bool.eq_false_iff.2 hg
      simp [List.filter_cons, this]

theorem getLastSnoc (l : List String) (a : String) :
    (l ++ [a]).getLast? = some a := by
  induction l with
  | nil => rfl
  | cons x xs ih =>
    cases xs with
    | nil => rfl
    | cons y ys =>
      simp only [List.cons_append, List.getLast?_cons_cons] at ih ⊢
      exact ih

theorem dropLastSnoc (l : List String) (a : String) :
    (l ++ [a]).dropLast = l := by
  simp

end PathLemmas

section FSLemmas

theorem findEqFilter (l : List (Path × String)) (pred : Path × String → Bool)
    (q : Path) (h : ∀ e ∈ l, e.1 = q → pred e = true) :
    (l.filter pred).find? (fun e => e.1 == q)
      = l.find? (fun e => e.1 == q) := by
  induction l with
  | nil => rfl
  | cons e l ih =>
    have hrest : ∀ e' ∈ l, e'.1 = q → pred e' = true :=
      fun e' he' => h e' (List.mem_cons_of_mem e he')
    by_cases hq : e.1 = q
    · have hp : pred e = true := h e (List.mem_cons_self e l) hq
      simp [List.filter_cons, hp, List.find?, hq]
    · have hbeq : (e.1 == q) = false := beq_eq_false_iff_ne.2 hq
      by_cases hp : pred e = true
      · simp [List.filter_cons, hp, List.find?, hbeq, ih hrest]
      · simp [List.filter_cons, Bool.eq_false_iff.2 hp, List.find?, hbeq,
          ih hrest]

theorem findNoneFilter (l : List (Path × String)) (pred : Path × String → Bool)
    (q : Path) (h : ∀ e ∈ l, e.1 = q → pred e = false) :
    (l.filter pred).find? (fun e => e.1 == q) = none := by
  induction l with
  | nil => rfl
  | cons e l ih =>
    have hrest : ∀ e' ∈ l, e'.1 = q → pred e' = false :=
      fun e' he' => h e' (List.mem_cons_of_mem e he')
    by_cases hq : e.1 = q
    · have hp : pred e = false := h e (List.mem_cons_self e l) hq
      simp [List.filter_cons, hp, ih hrest]
    · have hbeq : (e.1 == q) = false := beq_eq_false_iff_ne.2 hq
      by_cases hp : pred e = true
      · simp [List.filter_cons, hp, List.find?, hbeq, ih hrest]
      · simp [List.filter_cons, Bool.eq_false_iff.2 hp, ih hrest]

theorem memMkdirpDirs (fs : FS) (p q : Path) :
    q ∈ (fs.mkdirp p).dirs ↔
      (∃ i, i < p.segs.length ∧ q = Path.mk p.abs (p.segs.take (i + 1)))
        ∨ q ∈ fs.dirs := by
  simp only [FS.mkdirp, List.mem_append, List.mem_map, List.mem_range]
  constructor
  · rintro (⟨i, hi, rfl⟩ | h)
    · exact Or.inl ⟨i, hi, rfl⟩
    · exact Or.inr h
  · rintro (⟨i, hi, rfl⟩ | h)
    · exact Or.inl ⟨i, hi, rfl⟩
    · exact Or.inr h

theorem mkdirpDirExistsSelf (fs : FS) (p : Path) :
    (fs.mkdirp p).dirExists p := by
  rcases Nat.eq_zero_or_pos p.segs.length with h | h
  · exact Or.inl (List.eq_nil_of_length_eq_zero h)
  · refine Or.inr ((memMkdirpDirs fs p p).2 (Or.inl ⟨p.segs.length - 1, ?_, ?_⟩))
    · omega
    · have : p.segs.length - 1 + 1 = p.segs.length := by omega
      rw [this, List.take_length]

theorem mkdirpDirExistsMono (fs : FS) (p q : Path)
    (h : fs.dirExists q) : (fs.mkdirp p).dirExists q := by
  rcases h with h | h
  · exact Or.inl h
  · exact Or.inr ((memMkdirpDirs fs p q).2 (Or.inr h))

theorem mkdirpFiles (fs : FS) (p : Path) :
    (fs.mkdirp p).files = fs.files := rfl

theorem mkdirpFileContents (fs : FS) (p q : Path) :
    (fs.mkdirp p).fileContents q = fs.fileContents q := rfl

theorem setFileDirs (fs : FS) (p : Path) (c : String) :
    (fs.setFile p c).dirs = fs.dirs := rfl

theorem setFileContentsSelf (fs : FS) (p : Path) (c : String) :
    (fs.setFile p c).fileContents p = some c := by
  simp [FS.setFile, FS.fileContents, List.find?]

theorem setFileContentsOther (fs : FS) (p q : Path) (c : String)
    (h : q ≠ p) : (fs.setFile p c).fileContents q = fs.fileContents q := by
  have hbeq : (p == q) = false := beq_eq_false_iff_ne.2 (Ne.symm h)
  simp [FS.setFile, FS.fileContents, List.find?, hbeq]

theorem memRmrfDirs (fs : FS) (p q : Path) :
    q ∈ (fs.rmrf p).dirs ↔ q ∈ fs.dirs ∧ p.underB q = false := by
  simp [FS.rmrf, List.mem_filter]

theorem rmrfFileContentsHit (fs : FS) (p q : Path)
    (h : p.underB q = true) : (fs.rmrf p).fileContents q = none := by
  unfold FS.rmrf FS.fileContents
  rw [findNoneFilter]
  · rfl
  · intro e _ he
    simp [he, h]

theorem rmrfFileContentsMiss (fs : FS) (p q : Path)
    (h : p.underB q = false) :
    (fs.rmrf p).fileContents q = fs.fileContents q := by
  unfold FS.rmrf FS.fileContents
  rw [findEqFilter]
  intro e _ he
  simp [he, h]

theorem rmrfFileContentsNone (fs : FS) (p q : Path)
    (h : fs.fileContents q = none) : (fs.rmrf p).fileContents q = none := by
  by_cases hu : p.underB q = true
  · exact rmrfFileContentsHit fs p q hu
  · rw [rmrfFileContentsMiss fs p q (Bool.eq_false_iff.2 hu)]
    exact h

end FSLemmas

/- ===== claims ===== -/

/-- C1: for every plugin name that does not end with `_TESTPLUGIN`,
`createPluginModules` raises the error "Test plugin name has incorrect
suffix" synchronously and performs zero filesystem mutations (state and
trace are returned unchanged); in particular the plugin directory does
not exist afterwards when it did not exist before. -/
theorem c1_invalid_plugin_name_no_mutation (t : Tools) (n : String)
    (m : Option Modules) (s : St)
    (h : strEndsWith n "_TESTPLUGIN" = false) :
    createPluginModules t n m s
        = (s, some "Test plugin name has incorrect suffix") ∧
      (∀ q, ((createPluginModules t n m s).1.fs.dirExists q
          ↔ s.fs.dirExists q)
        ∧ (createPluginModules t n m s).1.fs.fileContents q
          = s.fs.fileContents q) ∧
      (¬ s.fs.dirExists (joinStr t.pluginsFolder n)
        → ¬ (createPluginModules t n m s).1.fs.dirExists
            (joinStr t.pluginsFolder n)) := by
  have hmain : createPluginModules t n m s = (s, some pluginError) := by
    simp [createPluginModules, h]
  refine ⟨hmain, fun q => ?_, fun hq => ?_⟩
  · rw [hmain]
    exact ⟨Iff.rfl, rfl⟩
  · rw [hmain]
    exact hq

/-- Witness for C1 at the concrete name `"foo"` on the empty state. -/
theorem c1_witness :
    createPluginModules sampleTools "foo" none emptySt
        = (emptySt, some "Test plugin name has incorrect suffix") ∧
      ¬ (createPluginModules sampleTools "foo" none emptySt).1.fs.dirExists
          (joinStr sampleTools.pluginsFolder "foo") :=
  ⟨(c1_invalid_plugin_name_no_mutation sampleTools "foo" none emptySt
      (by decide)).1,
   (c1_invalid_plugin_name_no_mutation sampleTools "foo" none emptySt
      (by decide)).2.2 (by decide)⟩

/-- C2 counterexample: the module name `"../evil"` makes
`createModules` compute and write a file path outside the target root
`/data/app` (namely `/data/evil.js`), so the claimed traversal safety
fails on the code. -/
theorem c2_counterexample_traversal_escape :
    Path.underB (Path.mk true ["data", "app"])
        (moduleFileName (Path.mk true ["data", "app"]) "../evil") = false ∧
      moduleFileName (Path.mk true ["data", "app"]) "../evil"
        = Path.mk true ["data", "evil.js"] ∧
      (createModules (Path.mk true ["data", "app"])
          (some (Modules.obj [("../evil", "x")])) "app"
          emptySt).fs.fileContents (Path.mk true ["data", "evil.js"])
        = some "x" := by
  decide

theorem __createModuleTrace (src : Path) (n c : String) (s : St) :
    (__createModule src n c s).tr = s.tr ++ moduleEvents src n c := by
  simp [__createModule, writeFile, createFolder, moduleEvents]

theorem __createModuleContentsSelf (src : Path) (n c : String) (s : St) :
    (__createModule src n c s).fs.fileContents (moduleFileName src n)
      = some c := by
  show ((((s.fs.mkdirp (dirname (moduleFileName src n))).mkdirp
      (dirname (moduleFileName src n)))).setFile (moduleFileName src n)
      c).fileContents (moduleFileName src n) = some c
  exact setFileContentsSelf _ _ _

theorem __createModuleContentsOther (src : Path) (n c : String) (s : St)
    (q : Path) (h : q ≠ moduleFileName src n) :
    (__createModule src n c s).fs.fileContents q = s.fs.fileContents q := by
  show ((((s.fs.mkdirp (dirname (moduleFileName src n))).mkdirp
      (dirname (moduleFileName src n)))).setFile (moduleFileName src n)
      c).fileContents q = s.fs.fileContents q
  rw [setFileContentsOther _ _ _ _ h, mkdirpFileContents,
    mkdirpFileContents]

theorem createModulesObjTrace (src : Path) (d : String) :
    ∀ (es : List (String × String)) (s : St),
    (createModules src (some (Modules.obj es)) d s).tr
      = s.tr ++ (es.map (fun e => moduleEvents src e.1 e.2)).flatten := by
  intro es
  induction es with
  | nil => intro s; simp [createModules]
  | cons e es ih =>
    intro s
    have hstep : createModules src (some (Modules.obj (e :: es))) d s
        = createModules src (some (Modules.obj es)) d
          (__createModule src e.1 e.2 s) := rfl
    rw [hstep, ih, __createModuleTrace]
    simp

/-- Appending an extension to a rendered path ending in segment `a`
extends that last segment. -/
theorem pathAppendStrSnoc (ab : Bool) (l : List String) (a e : String) :
    pathAppendStr ⟨ab, l ++ [a]⟩ e = ⟨ab, l ++ [a ++ e]⟩ := by
  unfold pathAppendStr
  simp only [getLastSnoc, dropLastSnoc]

theorem mfnAX (src : Path) :
    moduleFileName src "a/x"
      = ⟨src.abs, (normSegs src.abs src.segs ++ ["a"]) ++ ["x.js"]⟩ := by
  have hp : parsePath "a/x" = ⟨false, ["a", "x"]⟩ := by decide
  have he : moduleExt "a/x" = ".js" := by decide
  have hxj : "x" ++ ".js" = "x.js" := by decide
  unfold moduleFileName joinStr pathJoin
  rw [hp, he]
  have hns : normSegs src.abs (src.segs ++ ["a", "x"])
      = (normSegs src.abs src.segs ++ ["a"]) ++ ["x"] := by
    unfold normSegs
    rw [show (["a", "x"] : List String) = ["a"] ++ ["x"] from rfl,
      ← List.append_assoc, List.foldl_append, List.foldl_append]
    simp only [List.foldl_cons, List.foldl_nil]
    rw [joinStepRegular _ _ (by decide) (by decide) (by decide),
      joinStepRegular _ _ (by decide) (by decide) (by decide)]
  show pathAppendStr ⟨src.abs, normSegs src.abs (src.segs ++ ["a", "x"])⟩
      ".js" = _
  rw [hns, pathAppendStrSnoc, hxj]

theorem mfnAY (src : Path) :
    moduleFileName src "a/y"
      = ⟨src.abs, (normSegs src.abs src.segs ++ ["a"]) ++ ["y.js"]⟩ := by
  have hp : parsePath "a/y" = ⟨false, ["a", "y"]⟩ := by decide
  have he : moduleExt "a/y" = ".js" := by decide
  have hxj : "y" ++ ".js" = "y.js" := by decide
  unfold moduleFileName joinStr pathJoin
  rw [hp, he]
  have hns : normSegs src.abs (src.segs ++ ["a", "y"])
      = (normSegs src.abs src.segs ++ ["a"]) ++ ["y"] := by
    unfold normSegs
    rw [show (["a", "y"] : List String) = ["a"] ++ ["y"] from rfl,
      ← List.append_assoc, List.foldl_append, List.foldl_append]
    simp only [List.foldl_cons, List.foldl_nil]
    rw [joinStepRegular _ _ (by decide) (by decide) (by decide),
      joinStepRegular _ _ (by decide) (by decide) (by decide)]
  show pathAppendStr ⟨src.abs, normSegs src.abs (src.segs ++ ["a", "y"])⟩
      ".js" = _
  rw [hns, pathAppendStrSnoc, hxj]

theorem mfnAXneAY (src : Path) :
    moduleFileName src "a/x" ≠ moduleFileName src "a/y" := by
  rw [mfnAX, mfnAY]
  intro h
  injection h with h1 h2
  have := (List.append_inj h2 rfl).2
  injection this with h3
  exact absurd h3 (by decide)

/-- C3: `createModules` performs the effects of its entries strictly in
insertion order, one entry at a time (the trace is the concatenation of
the per-entry traces); for the batch `{"a/x": c1, "a/y": c2}` both
`a/x.js` and `a/y.js` exist afterwards with their respective contents,
for an arbitrary initial state, in particular whether or not `a/`
existed beforehand. -/
theorem c3_sequential_in_order (src : Path) (es : List (String × String))
    (d : String) (s s2 : St) (c1 c2 : String) :
    ((createModules src (some (Modules.obj es)) d s).tr
        = s.tr ++ (es.map (fun e => moduleEvents src e.1 e.2)).flatten) ∧
      (createModules src (some (Modules.obj [("a/x", c1), ("a/y", c2)]))
          d s2).fs.fileContents (moduleFileName src "a/x") = some c1 ∧
      (createModules src (some (Modules.obj [("a/x", c1), ("a/y", c2)]))
          d s2).fs.fileContents (moduleFileName src "a/y") = some c2 := by
  have hstep : createModules src
      (some (Modules.obj [("a/x", c1), ("a/y", c2)])) d s2
        = __createModule src "a/y" c2 (__createModule src "a/x" c1 s2) :=
    rfl
  refine ⟨createModulesObjTrace src d es s, ?_, ?_⟩
  · rw [hstep,
      __createModuleContentsOther _ _ _ _ _ (mfnAXneAY src)]
    exact __createModuleContentsSelf src "a/x" c1 s2
  · rw [hstep]
    exact __createModuleContentsSelf src "a/y" c2 _

/-- C4: `mustThrow(c, msg)` settles successfully iff the wrapped
computation's outcome is a failure whose message matches `msg`; it
settles as an assertion failure when the computation resolves normally
and when it fails with a non-matching message. -/
theorem c4_mustThrow_iff (c : Comp) (msg : String) :
    ((∃ v, mustThrow c msg = POutcome.resolved v)
        ↔ awaitAsync c = POutcome.failed msg) ∧
      (∀ v, awaitAsync c = POutcome.resolved v
        → ∃ m, mustThrow c msg = POutcome.failed m) ∧
      (∀ m, awaitAsync c = POutcome.failed m → m ≠ msg
        → ∃ m2, mustThrow c msg = POutcome.failed m2) := by
  rcases h : awaitAsync c with v | m
  · refine ⟨⟨?_, ?_⟩, ?_, ?_⟩
    · rintro ⟨w, hw⟩
      simp [mustThrow, h] at hw
    · intro hc
      cases hc
    · intro v' _
      exact ⟨"expected rejection with " ++ msg
        ++ " but the computation resolved", by simp [mustThrow, h]⟩
    · intro m' hm'
      cases hm'
  · refine ⟨⟨?_, ?_⟩, ?_, ?_⟩
    · rintro ⟨w, hw⟩
      by_cases hm : m = msg
      · rw [hm]
      · simp [mustThrow, h, hm] at hw
    · intro hc
      injection hc with he
      exact ⟨"", by simp [mustThrow, h, he]⟩
    · intro v' hv'
      cases hv'
    · intro m' hm' hne
      injection hm' with he
      subst he
      exact ⟨"expected error message " ++ msg ++ " but got " ++ m,
        by simp [mustThrow, h, hne]⟩

/-- Witness for C4: a computation failing with `"boom"` makes
`mustThrow _ "boom"` succeed, and one resolving with `"42"` makes it
fail. -/
theorem c4_witness :
    (∃ v, mustThrow (Comp.pending (POutcome.failed "boom")) "boom"
        = POutcome.resolved v) ∧
      (∃ m, mustThrow (Comp.pending (POutcome.resolved "42")) "boom"
        = POutcome.failed m) :=
  ⟨(c4_mustThrow_iff (Comp.pending (POutcome.failed "boom")) "boom").1.mpr
      rfl,
   (c4_mustThrow_iff (Comp.pending (POutcome.resolved "42")) "boom").2.1
      "42" rfl⟩

/-- C5 (code bug): a module name that already carries an extension has
that extension appended a second time: `"foo.css"` is materialized at
`<target>/foo.css.css`, not at `<target>/foo.css` as specified. -/
theorem c5_extension_doubled :
    moduleFileName (Path.mk true ["r"]) "foo.css"
        = Path.mk true ["r", "foo.css.css"] ∧
      (createModules (Path.mk true ["r"])
          (some (Modules.obj [("foo.css", "x")])) "app"
          emptySt).fs.fileContents (Path.mk true ["r", "foo.css.css"])
        = some "x" ∧
      (createModules (Path.mk true ["r"])
          (some (Modules.obj [("foo.css", "x")])) "app"
          emptySt).fs.fileContents (Path.mk true ["r", "foo.css"])
        = none := by
  decide

/-- C6: `writeFile(p, c)` first ensures the parent folder of `p`
exists, then overwrites `p` with `c`.  The statement quantifies over an
arbitrary prior state, so it holds in particular when the parent
directory did not exist before the call. -/
theorem c6_writeFile_ensures_parent (p : Path) (c : String) (s : St) :
    (writeFile p c s).tr
        = s.tr ++ [Ev.mkdirEv (dirname p), Ev.writeEv p c] ∧
      (writeFile p c s).fs.dirExists (dirname p) ∧
      (writeFile p c s).fs.fileContents p = some c := by
  refine ⟨?_, ?_, ?_⟩
  · simp [writeFile, createFolder]
  · show ((s.fs.mkdirp (dirname p)).setFile p c).dirExists (dirname p)
    exact mkdirpDirExistsSelf s.fs (dirname p)
  · show ((s.fs.mkdirp (dirname p)).setFile p c).fileContents p = some c
    exact setFileContentsSelf _ p c

/-- C8: after `createTestFolders`, the application source root and the
public asset root both exist, and the application root contains the
non-empty `README` marker file. -/
theorem c8_createTestFolders (t : Tools) (s : St) :
    (createTestFolders t s).fs.dirExists t.appFolder ∧
      (createTestFolders t s).fs.dirExists t.publicFolder ∧
      (createTestFolders t s).fs.fileContents (joinStr t.appFolder "README")
        = some readmeContent ∧
      readmeContent ≠ "" := by
  refine ⟨?_, ?_, ?_, by decide⟩
  · show (((((s.fs.mkdirp t.appFolder).mkdirp t.publicFolder).mkdirp
        (dirname (joinStr t.appFolder "README"))).setFile
        (joinStr t.appFolder "README") readmeContent)).dirExists t.appFolder
    exact mkdirpDirExistsMono _ _ _ (mkdirpDirExistsMono _ _ _
      (mkdirpDirExistsSelf s.fs t.appFolder))
  · show (((((s.fs.mkdirp t.appFolder).mkdirp t.publicFolder).mkdirp
        (dirname (joinStr t.appFolder "README"))).setFile
        (joinStr t.appFolder "README") readmeContent)).dirExists
        t.publicFolder
    exact mkdirpDirExistsMono _ _ _
      (mkdirpDirExistsSelf (s.fs.mkdirp t.appFolder) t.publicFolder)
  · show (((((s.fs.mkdirp t.appFolder).mkdirp t.publicFolder).mkdirp
        (dirname (joinStr t.appFolder "README"))).setFile
        (joinStr t.appFolder "README") readmeContent)).fileContents
        (joinStr t.appFolder "README") = some readmeContent
    exact setFileContentsSelf _ _ _

/-- C9: `awaitAsync` resolves an already-pending value to exactly that
value (or its propagated failure); a suspend/resume sequence raising
`e` at its first suspension point settles as a failure carrying exactly
`e`; and every outcome settles as exactly one of a resolved value or a
propagated failure. -/
theorem c9_awaitAsync :
    (∀ o, awaitAsync (Comp.pending o) = o) ∧
      (∀ e rest r,
        awaitAsync (Comp.genFn ⟨POutcome.failed e :: rest, r⟩)
          = POutcome.failed e) ∧
      (∀ c, (∃ v, awaitAsync c = POutcome.resolved v)
        ↔ ¬ ∃ m, awaitAsync c = POutcome.failed m) := by
  refine ⟨fun o => rfl, fun e rest r => rfl, fun c => ?_⟩
  rcases h : awaitAsync c with v | m <;> simp

/-- C10: a missing `modules` argument makes `createModules` (and hence
`createAppModules`) a no-op on both the filesystem and the trace, and
makes `createPluginModules` behave exactly as with an empty module
batch, i.e. it creates nothing beyond its own scaffolding. -/
theorem c10_absent_modules_no_op (t : Tools) (src : Path) (d : String)
    (s : St) (n : String) :
    createModules src none d s = s ∧
      createAppModules t none s = s ∧
      createPluginModules t n none s
        = createPluginModules t n (some (Modules.arr [])) s :=
  ⟨rfl, rfl, rfl⟩

/-- Joining a normalized root with `..`-free raw segments appends the
surviving segments. -/
theorem normSegsCleanAppend (ab : Bool) (src l : List String)
    (hsrc : ∀ g ∈ src, goodSeg g = true ∧ g ≠ "..")
    (hl : ".." ∉ l) :
    normSegs ab (src ++ l) = src ++ l.filter goodSeg := by
  unfold normSegs
  have hnd : ".." ∉ src ++ l := by
    intro hmem
    rcases List.mem_append.1 hmem with h | h
    · exact (hsrc _ h).2 rfl
    · exact hl h
  rw [foldlJoinNoDots ab _ [] hnd, List.nil_append, List.filter_append]
  congr 1
  exact List.filter_eq_self.2 (fun g hg => (hsrc g hg).1)

/-- C2 amended: for a module name that is free of `..` segments and has
at least one real segment, the computed module file path lies strictly
inside a normalized target root, the created directory path lies weakly
inside the root, and no file other than the computed one is touched.
(The original claim is refuted by `c2_counterexample_traversal_escape`:
a name containing `..` escapes the root, since the code never sanitizes
the name.) -/
theorem c2_amended_no_escape (src : Path) (m cts : String) (s : St)
    (hsrc : ∀ g ∈ src.segs, goodSeg g = true ∧ g ≠ "..")
    (hm : ".." ∉ (parsePath m).segs)
    (hne : (parsePath m).segs.filter goodSeg ≠ []) :
    Path.insideB src (moduleFileName src m) = true ∧
      Path.underB src (dirname (moduleFileName src m)) = true ∧
      (∀ q, q ≠ moduleFileName src m →
        (__createModule src m cts s).fs.fileContents q
          = s.fs.fileContents q) := by
  obtain ⟨i, a, hgl⟩ :
      ∃ i a, (parsePath m).segs.filter goodSeg = i ++ [a] := by
    rcases List.eq_nil_or_concat ((parsePath m).segs.filter goodSeg)
      with h | ⟨i, a, h⟩
    · exact absurd h hne
    · exact ⟨i, a, by simpa [List.concat_eq_append] using h⟩
  have hfile : moduleFileName src m
      = ⟨src.abs, (src.segs ++ i) ++ [a ++ moduleExt m]⟩ := by
    unfold moduleFileName joinStr pathJoin
    rw [normSegsCleanAppend src.abs src.segs _ hsrc hm, hgl,
      ← List.append_assoc]
    exact pathAppendStrSnoc _ _ _ _
  refine ⟨?_, ?_, ?_⟩
  · rw [hfile]
    unfold Path.insideB
    rw [Bool.and_eq_true]
    constructor
    · exact (underBIff _ _).2 ⟨rfl, i ++ [a ++ moduleExt m], by simp⟩
    · rw [decide_eq_true_eq]
      simp only [List.length_append, List.length_cons, List.length_nil]
      omega
  · rw [hfile]
    show Path.underB src ⟨src.abs,
      ((src.segs ++ i) ++ [a ++ moduleExt m]).dropLast⟩ = true
    rw [dropLastSnoc]
    exact (underBIff _ _).2 ⟨rfl, i, rfl⟩
  · intro q hq
    exact __createModuleContentsOther src m cts s q hq

theorem memRmrfFiles (fs : FS) (p : Path) (e : Path × String) :
    e ∈ (fs.rmrf p).files ↔ e ∈ fs.files ∧ p.underB e.1 = false := by
  simp [FS.rmrf, List.mem_filter]

theorem wfRmrf {fs : FS} (p : Path) (h : FSwf fs) : FSwf (fs.rmrf p) := by
  refine ⟨fun w hw => h.1 w ?_, fun e he => h.2 e ?_⟩
  · exact ((memRmrfDirs fs p w).1 hw).1
  · exact ((memRmrfFiles fs p e).1 he).1

theorem splitCharNoSep (c : Char) : ∀ l : List Char,
    c ∉ l → splitChar c l = [l] := by
  intro l
  induction l with
  | nil => intro _; rfl
  | cons x xs ih =>
    intro h
    have hx : ¬ (x = c) := fun he => h (by rw [← he]; exact List.mem_cons_self x xs)
    have hxs : c ∉ xs := fun he => h (List.mem_cons_of_mem x he)
    simp [splitChar, hx, ih hxs]

theorem parsePathSingle (s : String) (h : '/' ∉ s.data) :
    parsePath s = ⟨false, [s]⟩ := by
  unfold parsePath isAbsStr
  rw [splitCharNoSep '/' s.data h, Path.mk.injEq]
  refine ⟨?_, rfl⟩
  cases hd : s.data with
  | nil => rfl
  | cons c cs =>
    show (c == '/') = false
    refine beq_eq_false_iff_ne.2 (fun he => h ?_)
    rw [hd]
    exact List.mem_cons.2 (Or.inl he.symm)

theorem joinStrChild (P : Path) (m : String)
    (hP : ∀ g ∈ P.segs, goodSeg g = true ∧ g ≠ "..")
    (hslash : '/' ∉ m.data)
    (hm : goodSeg m = true) (hmdd : m ≠ "..") :
    joinStr P m = ⟨P.abs, P.segs ++ [m]⟩ := by
  unfold joinStr pathJoin
  rw [parsePathSingle m hslash]
  show Path.mk P.abs (normSegs P.abs (P.segs ++ [m])) = _
  have hdd : ".." ∉ ([m] : List String) := by
    intro hc
    rcases List.mem_singleton.1 hc with h
    exact hmdd h.symm
  rw [normSegsCleanAppend P.abs P.segs [m] hP hdd]
  simp [hm]

theorem suffixRegular {m : String}
    (h : strEndsWith m "_TESTPLUGIN" = true) :
    goodSeg m = true ∧ m ≠ ".." := by
  refine ⟨?_, fun he => ?_⟩
  · by_cases h0 : m = ""
    · subst h0; exact absurd h (by decide)
    · by_cases h1 : m = "."
      · subst h1; exact absurd h (by decide)
      · simp [goodSeg, h0, h1]
  · subst he; exact absurd h (by decide)

theorem underDisjoint {a b w : Path} (h1 : a.underB b = false)
    (h2 : b.underB a = false) (hb : b.underB w = true) :
    a.underB w = false := by
  by_contra hcb
  rw [Bool.not_eq_false] at hcb
  rcases underAntichain hcb hb with h | h
  · rw [h1] at h; simp at h
  · rw [h2] at h; simp at h

theorem foldDeleteSt (f : String → Path) : ∀ (l : List String) (s : St),
    l.foldl (fun st p => deleteFolder (f p) st) s
      = ⟨l.foldl (fun fs p => fs.rmrf (f p)) s.fs,
         s.tr ++ l.map (fun p => Ev.rmEv (f p))⟩ := by
  intro l
  induction l with
  | nil => intro s; cases s; simp
  | cons x xs ih =>
    intro s
    rw [List.foldl_cons, List.foldl_cons, ih]
    simp [deleteFolder]

theorem memFoldRmrfDirs (f : String → Path) :
    ∀ (l : List String) (fs : FS) (q : Path),
    q ∈ (l.foldl (fun a p => a.rmrf (f p)) fs).dirs
      ↔ q ∈ fs.dirs ∧ ∀ p ∈ l, (f p).underB q = false := by
  intro l
  induction l with
  | nil => intro fs q; simp
  | cons x xs ih =>
    intro fs q
    rw [List.foldl_cons, ih, memRmrfDirs]
    constructor
    · rintro ⟨⟨h1, h2⟩, h3⟩
      refine ⟨h1, fun p hp => ?_⟩
      rcases List.mem_cons.1 hp with rfl | hp'
      · exact h2
      · exact h3 p hp'
    · rintro ⟨h1, h2⟩
      exact ⟨⟨h1, h2 x (List.mem_cons_self x xs)⟩,
        fun p hp => h2 p (List.mem_cons_of_mem x hp)⟩

theorem foldRmrfContentsMiss (f : String → Path) :
    ∀ (l : List String) (fs : FS) (q : Path),
    (∀ p ∈ l, (f p).underB q = false) →
    (l.foldl (fun a p => a.rmrf (f p)) fs).fileContents q
      = fs.fileContents q := by
  intro l
  induction l with
  | nil => intro fs q _; rfl
  | cons x xs ih =>
    intro fs q h
    rw [List.foldl_cons,
      ih _ _ (fun p hp => h p (List.mem_cons_of_mem x hp)),
      rmrfFileContentsMiss _ _ _ (h x (List.mem_cons_self x xs))]

theorem foldRmrfContentsNone (f : String → Path) :
    ∀ (l : List String) (fs : FS) (q : Path),
    fs.fileContents q = none →
    (l.foldl (fun a p => a.rmrf (f p)) fs).fileContents q = none := by
  intro l
  induction l with
  | nil => intro fs q h; exact h
  | cons x xs ih =>
    intro fs q h
    rw [List.foldl_cons]
    exact ih _ _ (rmrfFileContentsNone _ _ _ h)

theorem foldRmrfContentsHit (f : String → Path) :
    ∀ (l : List String) (fs : FS) (q : Path),
    (∃ p ∈ l, (f p).underB q = true) →
    (l.foldl (fun a p => a.rmrf (f p)) fs).fileContents q = none := by
  intro l
  induction l with
  | nil => intro fs q h; simp at h
  | cons x xs ih =>
    intro fs q h
    rcases h with ⟨p, hp, hu⟩
    rcases List.mem_cons.1 hp with rfl | hp'
    · rw [List.foldl_cons]
      exact foldRmrfContentsNone f xs _ q (rmrfFileContentsHit _ _ _ hu)
    · rw [List.foldl_cons]
      exact ih _ _ ⟨p, hp', hu⟩

theorem childNameSome (p w : Path) (n : String) :
    childName p w = some n ↔ w.abs = p.abs ∧ w.segs = p.segs ++ [n] := by
  unfold childName
  by_cases hc : ((w.abs == p.abs) && (w.segs.length == p.segs.length + 1)
      && p.segs.isPrefixOf w.segs) = true
  · rw [if_pos hc]
    have hc' := hc
    rw [Bool.and_eq_true, Bool.and_eq_true] at hc'
    obtain ⟨⟨h1, h2⟩, h3⟩ := hc'
    have habs : w.abs = p.abs := beq_iff_eq.1 h1
    have hlen : w.segs.length = p.segs.length + 1 := beq_iff_eq.1 h2
    obtain ⟨t, ht⟩ := (isPrefixOfIffEx _ _).1 h3
    have hlt : t.length = 1 := by
      rw [ht, List.length_append] at hlen
      omega
    obtain ⟨b, rfl⟩ := List.length_eq_one.1 hlt
    rw [ht, getLastSnoc]
    constructor
    · intro hb
      injection hb with hb
      subst hb
      exact ⟨habs, rfl⟩
    · rintro ⟨_, hsegs⟩
      have heq := (List.append_inj hsegs rfl).2
      injection heq with hbn
      rw [hbn]
  · rw [if_neg hc]
    constructor
    · intro h
      cases h
    · rintro ⟨habs, hsegs⟩
      exfalso
      apply hc
      rw [Bool.and_eq_true, Bool.and_eq_true]
      refine ⟨⟨beq_iff_eq.2 habs, beq_iff_eq.2 ?_⟩, ?_⟩
      · rw [hsegs, List.length_append]
        rfl
      · exact (isPrefixOfIffEx _ _).2 ⟨[n], hsegs⟩

theorem memReaddir (fs : FS) (p : Path) (n : String) :
    n ∈ fs.readdir p ↔
      (∃ w ∈ fs.dirs, w.abs = p.abs ∧ w.segs = p.segs ++ [n])
        ∨ (∃ e ∈ fs.files, e.1.abs = p.abs ∧ e.1.segs = p.segs ++ [n]) := by
  unfold FS.readdir
  rw [List.mem_dedup, List.mem_append]
  simp only [List.mem_filterMap, List.mem_map, childNameSome]
  constructor
  · rintro (⟨w, hw, h⟩ | ⟨b, ⟨e, he, rfl⟩, h⟩)
    · exact Or.inl ⟨w, hw, h⟩
    · exact Or.inr ⟨e, he, h⟩
  · rintro (⟨w, hw, h⟩ | ⟨e, he, h⟩)
    · exact Or.inl ⟨w, hw, h⟩
    · exact Or.inr ⟨e.1, ⟨e, he, rfl⟩, h⟩

theorem sweepJoin (t : Tools) (fs : FS) (hwf : FSwf fs)
    (hP : ∀ g ∈ t.pluginsFolder.segs, goodSeg g = true ∧ g ≠ "..") :
    ∀ m ∈ sweepSrc t fs, joinStr t.pluginsFolder m
      = ⟨t.pluginsFolder.abs, t.pluginsFolder.segs ++ [m]⟩ := by
  intro m hm
  have hsuf := (List.mem_filter.1 hm).2
  have hread := (List.mem_filter.1 hm).1
  have hslash : '/' ∉ m.data := by
    rcases (memReaddir fs t.pluginsFolder m).1 hread with
      ⟨w, hw, _, hsegs⟩ | ⟨e, he, _, hsegs⟩
    · refine hwf.1 w hw m ?_
      rw [hsegs]
      exact List.mem_append_right _ (List.mem_cons_self _ _)
    · refine hwf.2 e he m ?_
      rw [hsegs]
      exact List.mem_append_right _ (List.mem_cons_self _ _)
  obtain ⟨hg, hdd⟩ := suffixRegular hsuf
  exact joinStrChild t.pluginsFolder m hP hslash hg hdd

theorem readdirSurvives (t : Tools) (fs : FS) (n : String)
    (hpub1 : t.publicFolder.underB t.pluginsFolder = false)
    (hpub2 : t.pluginsFolder.underB t.publicFolder = false)
    (happ1 : t.appFolder.underB t.pluginsFolder = false)
    (happ2 : t.pluginsFolder.underB t.appFolder = false)
    (hn : n ∈ fs.readdir t.pluginsFolder) :
    n ∈ ((fs.rmrf t.publicFolder).rmrf t.appFolder).readdir
      t.pluginsFolder := by
  rcases (memReaddir fs t.pluginsFolder n).1 hn with
    ⟨w, hw, habs, hsegs⟩ | ⟨e, he, habs, hsegs⟩
  · have hPw : t.pluginsFolder.underB w = true :=
      (underBIff _ _).2 ⟨habs.symm, [n], hsegs⟩
    refine (memReaddir _ _ n).2 (Or.inl ⟨w, ?_, habs, hsegs⟩)
    exact (memRmrfDirs _ _ _).2
      ⟨(memRmrfDirs _ _ _).2 ⟨hw, underDisjoint hpub1 hpub2 hPw⟩,
       underDisjoint happ1 happ2 hPw⟩
  · have hPw : t.pluginsFolder.underB e.1 = true :=
      (underBIff _ _).2 ⟨habs.symm, [n], hsegs⟩
    refine (memReaddir _ _ n).2 (Or.inr ⟨e, ?_, habs, hsegs⟩)
    exact (memRmrfFiles _ _ _).2
      ⟨(memRmrfFiles _ _ _).2 ⟨he, underDisjoint hpub1 hpub2 hPw⟩,
       underDisjoint happ1 happ2 hPw⟩

/-- C7: `deleteTestFolders` deletes the public asset root, then the
application source root, and then exactly the immediate children of the
plugins directory whose names end with `_TESTPLUGIN`; every entry of
the plugins directory whose name does not end with that suffix is left
unchanged.  The hypotheses say that the plugins directory is disjoint
from the two fixture roots and that the stored paths are well formed
(no `/` inside a segment), as on a real filesystem. -/
theorem c7_deleteTestFolders (t : Tools) (s : St)
    (hpub1 : t.publicFolder.underB t.pluginsFolder = false)
    (hpub2 : t.pluginsFolder.underB t.publicFolder = false)
    (happ1 : t.appFolder.underB t.pluginsFolder = false)
    (happ2 : t.pluginsFolder.underB t.appFolder = false)
    (hP : ∀ g ∈ t.pluginsFolder.segs, goodSeg g = true ∧ g ≠ "..")
    (hwf : FSwf s.fs) :
    ((deleteTestFolders t s).tr
        = s.tr ++ [Ev.rmEv t.publicFolder, Ev.rmEv t.appFolder]
          ++ (sweepSrc t ((s.fs.rmrf t.publicFolder).rmrf t.appFolder)).map
              (fun p => Ev.rmEv (joinStr t.pluginsFolder p))) ∧
      (∀ n, n ∈ s.fs.readdir t.pluginsFolder
        → strEndsWith n "_TESTPLUGIN" = true
        → ∀ q, (Path.mk t.pluginsFolder.abs
              (t.pluginsFolder.segs ++ [n])).underB q = true
          → ¬ (deleteTestFolders t s).fs.dirExists q
            ∧ (deleteTestFolders t s).fs.fileContents q = none) ∧
      (∀ n, strEndsWith n "_TESTPLUGIN" = false
        → ∀ q, (Path.mk t.pluginsFolder.abs
              (t.pluginsFolder.segs ++ [n])).underB q = true
          → ((deleteTestFolders t s).fs.dirExists q ↔ s.fs.dirExists q)
            ∧ (deleteTestFolders t s).fs.fileContents q
              = s.fs.fileContents q) := by
  have hwf2 : FSwf ((s.fs.rmrf t.publicFolder).rmrf t.appFolder) :=
    wfRmrf _ (wfRmrf _ hwf)
  have hplug := sweepJoin t ((s.fs.rmrf t.publicFolder).rmrf t.appFolder)
    hwf2 hP
  have hstate : deleteTestFolders t s
      = ⟨(sweepSrc t ((s.fs.rmrf t.publicFolder).rmrf t.appFolder)).foldl
          (fun a p => a.rmrf (joinStr t.pluginsFolder p))
          ((s.fs.rmrf t.publicFolder).rmrf t.appFolder),
         (s.tr ++ [Ev.rmEv t.publicFolder] ++ [Ev.rmEv t.appFolder])
           ++ (sweepSrc t
               ((s.fs.rmrf t.publicFolder).rmrf t.appFolder)).map
               (fun p => Ev.rmEv (joinStr t.pluginsFolder p))⟩ := by
    show (sweepSrc t ((s.fs.rmrf t.publicFolder).rmrf t.appFolder)).foldl
        (fun st p => deleteFolder (joinStr t.pluginsFolder p) st)
        ⟨(s.fs.rmrf t.publicFolder).rmrf t.appFolder,
         (s.tr ++ [Ev.rmEv t.publicFolder]) ++ [Ev.rmEv t.appFolder]⟩ = _
    rw [foldDeleteSt]
  refine ⟨?_, ?_, ?_⟩
  · rw [hstate]
    simp
  · intro n hn hsuf q hq
    have hn2 := readdirSurvives t s.fs n hpub1 hpub2 happ1 happ2 hn
    have hnsw : n ∈ sweepSrc t
        ((s.fs.rmrf t.publicFolder).rmrf t.appFolder) :=
      List.mem_filter.2 ⟨hn2, hsuf⟩
    have hjoin := hplug n hnsw
    have hqsegs : q.segs ≠ [] := by
      obtain ⟨_, u, hu⟩ := (underBIff _ _).1 hq
      intro he
      rw [he] at hu
      have := congrArg List.length hu
      simp [List.length_append] at this
      omega
    constructor
    · intro hex
      rcases hex with he | hmem
      · exact hqsegs he
      · rw [hstate] at hmem
        have := (memFoldRmrfDirs _ _ _ _).1 hmem
        have hfalse := this.2 n hnsw
        rw [hjoin, hq] at hfalse
        simp at hfalse
    · rw [hstate]
      refine foldRmrfContentsHit _ _ _ _ ⟨n, hnsw, ?_⟩
      rw [hjoin]
      exact hq
  · intro n hnsuf q hq
    have hchild : (Path.mk t.pluginsFolder.abs
        (t.pluginsFolder.segs ++ [n])).underB q = true := hq
    have hPn : t.pluginsFolder.underB
        (Path.mk t.pluginsFolder.abs (t.pluginsFolder.segs ++ [n]))
          = true :=
      (underBIff _ _).2 ⟨rfl, [n], rfl⟩
    have hPq : t.pluginsFolder.underB q = true := underBTrans hPn hchild
    have hpubq : t.publicFolder.underB q = false :=
      underDisjoint hpub1 hpub2 hPq
    have happq : t.appFolder.underB q = false :=
      underDisjoint happ1 happ2 hPq
    have hplugq : ∀ p ∈ sweepSrc t
        ((s.fs.rmrf t.publicFolder).rmrf t.appFolder),
        (joinStr t.pluginsFolder p).underB q = false := by
      intro p hp
      have hj := hplug p hp
      have hsufp := (List.mem_filter.1 hp).2
      by_contra hcb
      rw [Bool.not_eq_false, hj] at hcb
      have heq := underBEqOfLen hcb hchild (by simp)
      injection heq with h1 h2
      have := (List.append_inj h2 rfl).2
      injection this with h3
      rw [h3, hnsuf] at hsufp
      simp at hsufp
    have hdirs : q ∈ ((sweepSrc t
          ((s.fs.rmrf t.publicFolder).rmrf t.appFolder)).foldl
          (fun a p => a.rmrf (joinStr t.pluginsFolder p))
          ((s.fs.rmrf t.publicFolder).rmrf t.appFolder)).dirs
        ↔ q ∈ s.fs.dirs := by
      rw [memFoldRmrfDirs, memRmrfDirs, memRmrfDirs]
      constructor
      · rintro ⟨⟨⟨h, _⟩, _⟩, _⟩
        exact h
      · intro h
        exact ⟨⟨⟨h, hpubq⟩, happq⟩, hplugq⟩
    constructor
    · rw [hstate]
      exact or_congr Iff.rfl hdirs
    · rw [hstate]
      show ((sweepSrc t ((s.fs.rmrf t.publicFolder).rmrf t.appFolder)).foldl
          (fun a p => a.rmrf (joinStr t.pluginsFolder p))
          ((s.fs.rmrf t.publicFolder).rmrf t.appFolder)).fileContents q
        = s.fs.fileContents q
      rw [foldRmrfContentsMiss _ _ _ _ hplugq,
        rmrfFileContentsMiss _ _ _ happq,
        rmrfFileContentsMiss _ _ _ hpubq]

/-- Witness for C7 on a concrete plugins directory holding one marked
and one unmarked entry: the marked plugin is removed and the file under
the unmarked entry keeps its contents. -/
theorem c7_witness :
    ¬ (deleteTestFolders sampleTools sampleSweepSt).fs.dirExists
        (Path.mk true ["nm", "a_TESTPLUGIN"]) ∧
      (deleteTestFolders sampleTools sampleSweepSt).fs.fileContents
          (Path.mk true ["nm", "keep", "f"])
        = sampleSweepSt.fs.fileContents (Path.mk true ["nm", "keep", "f"]) :=
  ⟨((c7_deleteTestFolders sampleTools sampleSweepSt (by decide) (by decide)
      (by decide) (by decide) (by decide) (by decide)).2.1
      "a_TESTPLUGIN" (by decide) (by decide)
      (Path.mk true ["nm", "a_TESTPLUGIN"]) (by decide)).1,
   ((c7_deleteTestFolders sampleTools sampleSweepSt (by decide) (by decide)
      (by decide) (by decide) (by decide) (by decide)).2.2
      "keep" (by decide)
      (Path.mk true ["nm", "keep", "f"]) (by decide)).2⟩

/-- Witness for C3: the two-entry batch evaluated on the empty state at
root `/r`. -/
theorem c3_witness :
    (createModules (Path.mk true ["r"])
        (some (Modules.obj [("a/x", "1"), ("a/y", "2")])) "app"
        emptySt).fs.fileContents
        (moduleFileName (Path.mk true ["r"]) "a/x") = some "1" :=
  (c3_sequential_in_order (Path.mk true ["r"]) [] "app" emptySt emptySt
    "1" "2").2.1

/-- Witness for C6: writing into a folder that does not exist yet. -/
theorem c6_witness :
    (writeFile (Path.mk true ["a", "b", "f.txt"]) "hello"
        emptySt).fs.fileContents (Path.mk true ["a", "b", "f.txt"])
      = some "hello" :=
  (c6_writeFile_ensures_parent (Path.mk true ["a", "b", "f.txt"]) "hello"
    emptySt).2.2

/-- Witness for C8 on the empty state. -/
theorem c8_witness :
    (createTestFolders sampleTools emptySt).fs.dirExists
      sampleTools.appFolder :=
  (c8_createTestFolders sampleTools emptySt).1

/-- Witness for C9: a sequence raising `"err"` at its first suspension
point. -/
theorem c9_witness :
    awaitAsync (Comp.genFn ⟨[POutcome.failed "err"], "v"⟩)
      = POutcome.failed "err" :=
  c9_awaitAsync.2.1 "err" [] "v"

/-- Witness for C10 on the empty state. -/
theorem c10_witness :
    createAppModules sampleTools none emptySt = emptySt :=
  (c10_absent_modules_no_op sampleTools (Path.mk true ["r"]) "d" emptySt
    "p_TESTPLUGIN").2.1

/-- Witness for the amended C2 at root `/r` and name `"sub/mod"`. -/
theorem c2_amended_witness :
    Path.insideB (Path.mk true ["r"])
        (moduleFileName (Path.mk true ["r"]) "sub/mod") = true ∧
      Path.underB (Path.mk true ["r"])
        (dirname (moduleFileName (Path.mk true ["r"]) "sub/mod")) = true :=
  ⟨(c2_amended_no_escape (Path.mk true ["r"]) "sub/mod" "x" emptySt
      (by decide) (by decide) (by decide)).1,
   (c2_amended_no_escape (Path.mk true ["r"]) "sub/mod" "x" emptySt
      (by decide) (by decide) (by decide)).2.1⟩

end TestUtils
